import Mathlib

/-!
Shallow embedding of the omen-fan fan-control daemon (`omen-fand.py`) and the
relevant parts of the CLI tool (`omen-fan.py`).

Numeric values (temperatures, speeds, slopes) are modelled as rationals; the
Python `round(x, 2)` (round-half-to-even at two decimal places) is modelled by
`round2`, and `int(x)` truncation toward zero by `pyTrunc`.
-/

namespace OmenFan

/-- Python `round` to the nearest integer, ties to even (banker's rounding). -/
def roundHalfEven (x : ℚ) : ℤ :=
  let f : ℤ := ⌊x⌋
  if x - f < 1/2 then f
  else if 1/2 < x - f then f + 1
  else if f % 2 = 0 then f else f + 1

/-- Python `round(x, 2)`: round to two decimal places, ties to even. -/
def round2 (x : ℚ) : ℚ := (roundHalfEven (100 * x) : ℚ) / 100

/-- Python `int(x)` on a real value: truncation toward zero. -/
def pyTrunc (x : ℚ) : ℤ := if 0 ≤ x then ⌊x⌋ else ⌈x⌉

/-- `bisect.bisect_left(l, x)` for a sorted list `l`: the leftmost insertion
point of `x`, i.e. the length of the longest prefix of elements `< x`. -/
def bisectLeft : List ℚ → ℚ → ℕ
  | [], _ => 0
  | a :: l, x => if a < x then bisectLeft l x + 1 else 0

/-- The precomputed slope table of `omen-fand.py` (lines 91-96):
`slope[i-1] = round((SPEED_CURVE[i]-SPEED_CURVE[i-1])/(TEMP_CURVE[i]-TEMP_CURVE[i-1]), 2)`
for `i = 1 .. len-1`. -/
def slopes : List ℚ → List ℚ → List ℚ
  | t0 :: t1 :: ts, s0 :: s1 :: ss =>
      round2 ((s1 - s0) / (t1 - t0)) :: slopes (t1 :: ts) (s1 :: ss)
  | _, _ => []

/-- The interior interpolation branch of the main loop (lines 170-173):
`i = bisect_left(TEMP_CURVE, temp); speed = SPEED_CURVE[i-1] + slope[i-1]*(temp - TEMP_CURVE[i-1])`. -/
def interpolate (temps speeds : List ℚ) (t : ℚ) : ℚ :=
  let i := bisectLeft temps t
  speeds.getD (i - 1) 0 + (slopes temps speeds).getD (i - 1) 0 * (t - temps.getD (i - 1) 0)

/-- The speed computation of the main loop of `omen-fand.py` (lines 165-173):
idle speed when `temp <= TEMP_CURVE[0]`, `SPEED_CURVE[-1]` when
`temp >= TEMP_CURVE[-1]`, linear interpolation with the precomputed rounded
slope table otherwise. -/
def targetSpeed (temps speeds : List ℚ) (idle t : ℚ) : ℚ :=
  if t ≤ temps.getD 0 0 then idle
  else if temps.getD (temps.length - 1) 0 ≤ t then speeds.getD (speeds.length - 1) 0
  else interpolate temps speeds t

/-- The default fan curve temperatures (`DEFAULT_CONFIG`, line 30). -/
def defaultTempCurve : List ℚ := [50, 60, 70, 80, 87, 93]

/-- The default fan curve speeds (`DEFAULT_CONFIG`, line 31). -/
def defaultSpeedCurve : List ℚ := [20, 40, 60, 70, 85, 100]

/-- State of `TemperatureFilter` (`omen-fand.py` lines 64-68): a bounded
window of samples (a `deque` with `maxlen = windowSize`, oldest first), the
hysteresis threshold, and `last_speed` initialized to `0`. -/
structure TemperatureFilter where
  window : List ℚ
  windowSize : ℕ
  hysteresis : ℚ
  last_speed : ℚ
deriving DecidableEq

/-- `TemperatureFilter.__init__(window_size, hysteresis)`: empty window and
`last_speed = 0`. The daemon constructs it as `TemperatureFilter(hysteresis=HYSTERESIS)`,
i.e. with the default `window_size = 5`. -/
def TemperatureFilter.init (windowSize : ℕ) (hysteresis : ℚ) : TemperatureFilter :=
  ⟨[], windowSize, hysteresis, 0⟩

/-- `TemperatureFilter.smooth_temp` (lines 70-72): append the sample to the
`deque` (evicting the oldest when the window is full) and return the
arithmetic mean of the current contents, together with the updated filter. -/
def smoothTemp (f : TemperatureFilter) (temp : ℚ) : TemperatureFilter × ℚ :=
  let w := if f.window.length = f.windowSize then f.window.tail ++ [temp]
           else f.window ++ [temp]
  (⟨w, f.windowSize, f.hysteresis, f.last_speed⟩, w.sum / (w.length : ℚ))

/-- `TemperatureFilter.apply_hysteresis` (lines 74-78): return `last_speed`
unchanged when `|new_speed - last_speed| < hysteresis`, otherwise store and
return `new_speed`. -/
def applyHysteresis (f : TemperatureFilter) (newSpeed : ℚ) : TemperatureFilter × ℚ :=
  if |newSpeed - f.last_speed| < f.hysteresis then (f, f.last_speed)
  else (⟨f.window, f.windowSize, f.hysteresis, newSpeed⟩, newSpeed)

/-- Feed a list of raw samples through `smooth_temp`, collecting the outputs. -/
def smoothRun (f : TemperatureFilter) : List ℚ → TemperatureFilter × List ℚ
  | [] => (f, [])
  | t :: ts =>
      let p := smoothTemp f t
      let q := smoothRun p.1 ts
      (q.1, p.2 :: q.2)

/-- The fan-unit conversion of the main loop of `omen-fand.py` (lines 179-180):
`fan1_speed = int(FAN1_MAX * speed / 100)`, `fan2_speed = int(FAN2_MAX * speed / 100)`
with `FAN1_MAX = 55`, `FAN2_MAX = 57`. -/
def mainLoopFanUnits (speed : ℚ) : ℤ × ℤ :=
  (pyTrunc (55 * speed / 100), pyTrunc (57 * speed / 100))

/-- The percentage branch of `parse_rpm` in `omen-fan.py` (lines 230-234):
reject percentages outside `[0, 100]`, otherwise `int(max_speed * rpm / 100)`. -/
def parseRpmPercent (maxSpeed rpm : ℤ) : Option ℤ :=
  if rpm < 0 ∨ 100 < rpm then none
  else some (pyTrunc ((maxSpeed : ℚ) * (rpm : ℚ) / 100))

/-- Observable EC-register events issued by `bios_control`. -/
inductive EcEv where
  | write (offset value : ℕ)
  | settle
deriving DecidableEq

/-- The EC write sequence of `bios_control` in `omen-fand.py` (lines 129-144).
`bios_control(False)` (take ownership): write `6` at `BIOS_OFFSET = 98`,
`sleep(0.1)`, write `0` at `TIMER_OFFSET = 99`. `bios_control(True)` (release):
write `0` at `BIOS_OFFSET = 98`, then `0` at `FAN1_OFFSET = 52`, then `0` at
`FAN2_OFFSET = 53`. -/
def biosControlFand : Bool → List EcEv
  | false => [.write 98 6, .settle, .write 99 0]
  | true => [.write 98 0, .write 52 0, .write 53 0]

/-- The EC write sequence of `bios_control` in `omen-fan.py` (lines 196-216);
its register writes and settle delay are identical to the daemon's (the extra
console messages are not register events). -/
def biosControlFan : Bool → List EcEv
  | false => [.write 98 6, .settle, .write 99 0]
  | true => [.write 98 0, .write 52 0, .write 53 0]

/-- Observable events of the daemon's module-level startup code. -/
inductive StartEv where
  | sigRegister
  | logSetup
  | logStart
  | writePid
  | rootCheckPass
  | printRootErr
  | exitProc (code : ℕ)
deriving DecidableEq

/-- The module-level startup sequence of `omen-fand.py` (lines 147-156):
register the SIGTERM handler, set up logging, log the startup message, write
the PID file `/tmp/omen-fand.PID`, then run `is_root()`, which exits with
status 1 (after printing an error) when the effective UID is not 0. -/
def daemonStartup (euidIsZero : Bool) : List StartEv :=
  [.sigRegister, .logSetup, .logStart, .writePid] ++
    (if euidIsZero then [.rootCheckPass] else [.printRootErr, .exitProc 1])

/-! ### Helper lemmas -/

lemma bisectLeft_le_length (l : List ℚ) (x : ℚ) : bisectLeft l x ≤ l.length := by
  induction l with
  | nil => simp [bisectLeft]
  | cons a t ih =>
    simp only [bisectLeft, List.length_cons]
    split
    · omega
    · omega

lemma bisectLeft_getD_lt (l : List ℚ) (x : ℚ) :
    ∀ j, j < bisectLeft l x → l.getD j 0 < x := by
  induction l with
  | nil => intro j hj; simp [bisectLeft] at hj
  | cons a t ih =>
    intro j hj
    simp only [bisectLeft] at hj
    by_cases hax : a < x
    · rw [if_pos hax] at hj
      cases j with
      | zero => simpa using hax
      | succ n => simpa using ih n (by omega)
    · rw [if_neg hax] at hj
      omega

lemma le_getD_bisectLeft (l : List ℚ) (x : ℚ) :
    bisectLeft l x < l.length → x ≤ l.getD (bisectLeft l x) 0 := by
  induction l with
  | nil => intro h; simp [bisectLeft] at h
  | cons a t ih =>
    intro h
    by_cases hax : a < x
    · have hb : bisectLeft (a :: t) x = bisectLeft t x + 1 := by
        simp [bisectLeft, hax]
      rw [hb] at h ⊢
      simpa using ih (by simpa using h)
    · have hb : bisectLeft (a :: t) x = 0 := by simp [bisectLeft, hax]
      rw [hb]
      simpa using not_lt.mp hax

lemma bisectLeft_mono (l : List ℚ) {x y : ℚ} (hxy : x ≤ y) :
    bisectLeft l x ≤ bisectLeft l y := by
  induction l with
  | nil => simp [bisectLeft]
  | cons a t ih =>
    simp only [bisectLeft]
    by_cases hax : a < x
    · rw [if_pos hax, if_pos (lt_of_lt_of_le hax hxy)]
      omega
    · rw [if_neg hax]
      exact Nat.zero_le _

lemma bisectLeft_eq_of (l : List ℚ) (x : ℚ) (i : ℕ) (hi : i ≤ l.length)
    (h1 : ∀ j, j < i → l.getD j 0 < x) (h2 : i < l.length → x ≤ l.getD i 0) :
    bisectLeft l x = i := by
  rcases Nat.lt_trichotomy (bisectLeft l x) i with h | h | h
  · have hk : bisectLeft l x < l.length := lt_of_lt_of_le h hi
    exact absurd (h1 _ h) (not_lt.mpr (le_getD_bisectLeft l x hk))
  · exact h
  · have hil : i < l.length := lt_of_lt_of_le h (bisectLeft_le_length l x)
    exact absurd (bisectLeft_getD_lt l x i h) (not_lt.mpr (h2 hil))

lemma chain'_getD (r : ℚ → ℚ → Prop) :
    ∀ (l : List ℚ), List.Chain' r l → ∀ j, j + 1 < l.length →
      r (l.getD j 0) (l.getD (j + 1) 0) := by
  intro l
  induction l with
  | nil => intro _ j hj; simp at hj
  | cons a t ih =>
    intro h j hj
    cases t with
    | nil => simp at hj
    | cons b t' =>
      have h' := List.chain'_cons.mp h
      cases j with
      | zero => simpa using h'.1
      | succ n =>
        have hn : n + 1 < (b :: t').length := by
          simp only [List.length_cons] at hj ⊢
          omega
        simpa using ih h'.2 n hn

lemma chain'_getD_trans_lt (l : List ℚ) (h : List.Chain' (· < ·) l) :
    ∀ a b, a < b → b < l.length → l.getD a 0 < l.getD b 0 := by
  intro a b hab hb
  induction b with
  | zero => omega
  | succ n ih =>
    rcases Nat.lt_succ_iff_lt_or_eq.mp hab with h1 | h1
    · exact lt_trans (ih h1 (by omega)) (chain'_getD _ l h n (by omega))
    · subst h1
      exact chain'_getD _ l h a (by omega)

lemma chain'_getD_trans_le (l : List ℚ) (h : List.Chain' (· ≤ ·) l) :
    ∀ a b, a ≤ b → b < l.length → l.getD a 0 ≤ l.getD b 0 := by
  intro a b hab hb
  induction b with
  | zero =>
    obtain rfl := Nat.le_zero.mp hab
    exact le_refl _
  | succ n ih =>
    by_cases he : a = n + 1
    · subst he
      exact le_refl _
    · have h1 : a ≤ n := by omega
      exact le_trans (ih h1 (by omega)) (chain'_getD _ l h n (by omega))

lemma slopes_length : ∀ (t s : List ℚ), t.length = s.length →
    (slopes t s).length = t.length - 1
  | [], [], _ => rfl
  | [_], [_], _ => rfl
  | [], _ :: _, h => by
    simp only [List.length_nil, List.length_cons] at h
    omega
  | _ :: _, [], h => by
    simp only [List.length_nil, List.length_cons] at h
    omega
  | [_], _ :: _ :: _, h => by
    simp only [List.length_cons, List.length_nil] at h
    omega
  | _ :: _ :: _, [_], h => by
    simp only [List.length_cons, List.length_nil] at h
    omega
  | t0 :: t1 :: ts, s0 :: s1 :: ss, h => by
    have h' : (t1 :: ts).length = (s1 :: ss).length := by
      simp only [List.length_cons] at h ⊢
      omega
    simp only [slopes, List.length_cons]
    rw [slopes_length (t1 :: ts) (s1 :: ss) h']
    simp only [List.length_cons]
    omega

lemma slopes_getD : ∀ (t s : List ℚ), t.length = s.length → ∀ j, j + 1 < t.length →
    (slopes t s).getD j 0 =
      round2 ((s.getD (j + 1) 0 - s.getD j 0) / (t.getD (j + 1) 0 - t.getD j 0))
  | [], _, _, j, hj => by
    simp only [List.length_nil] at hj
    omega
  | [_], _, _, j, hj => by
    simp only [List.length_cons, List.length_nil] at hj
    omega
  | _ :: _ :: _, [], h, _, _ => by
    simp only [List.length_nil, List.length_cons] at h
    omega
  | _ :: _ :: _, [_], h, _, _ => by
    simp only [List.length_cons, List.length_nil] at h
    omega
  | t0 :: t1 :: ts, s0 :: s1 :: ss, h, 0, hj => by
    simp [slopes]
  | t0 :: t1 :: ts, s0 :: s1 :: ss, h, n + 1, hj => by
    have h' : (t1 :: ts).length = (s1 :: ss).length := by
      simp only [List.length_cons] at h ⊢
      omega
    have hn : n + 1 < (t1 :: ts).length := by
      simp only [List.length_cons] at hj ⊢
      omega
    simpa [slopes] using slopes_getD (t1 :: ts) (s1 :: ss) h' n hn

lemma roundHalfEven_nonneg {x : ℚ} (hx : 0 ≤ x) : 0 ≤ roundHalfEven x := by
  have hf : (0 : ℤ) ≤ ⌊x⌋ := Int.floor_nonneg.mpr hx
  unfold roundHalfEven
  dsimp only
  split
  · omega
  · split
    · omega
    · split <;> omega

lemma round2_nonneg {x : ℚ} (hx : 0 ≤ x) : 0 ≤ round2 x := by
  have h1 : 0 ≤ roundHalfEven (100 * x) :=
    roundHalfEven_nonneg (by linarith)
  have h2 : (0 : ℚ) ≤ (roundHalfEven (100 * x) : ℚ) := by exact_mod_cast h1
  unfold round2
  exact div_nonneg h2 (by norm_num)

lemma bisect_interior (temps : List ℚ) (h2 : 2 ≤ temps.length) (t : ℚ)
    (hlow : temps.getD 0 0 < t) (hhigh : t < temps.getD (temps.length - 1) 0) :
    1 ≤ bisectLeft temps t ∧ bisectLeft temps t ≤ temps.length - 1 := by
  constructor
  · by_contra h
    have h0 : bisectLeft temps t = 0 := by omega
    have hle := le_getD_bisectLeft temps t (by omega)
    rw [h0] at hle
    exact absurd hlow (not_lt.mpr hle)
  · by_contra h
    have hlen := bisectLeft_le_length temps t
    have := bisectLeft_getD_lt temps t (temps.length - 1) (by omega)
    exact absurd this (not_lt.mpr (le_of_lt hhigh))

/-! ### Claims about the speed computation -/

/-- C10: for a valid curve and a temperature strictly between the first and
last breakpoints, the insertion point `i` computed by the interior branch
satisfies `1 ≤ i ≤ len - 1`, and the slope table has length `len - 1`, so
`TEMP_CURVE[i-1]`, `SPEED_CURVE[i-1]` and `slope[i-1]` are all in bounds. -/
theorem interior_index_in_bounds (temps speeds : List ℚ)
    (hlen : temps.length = speeds.length) (h2 : 2 ≤ temps.length)
    (_hT : List.Chain' (· < ·) temps) (t : ℚ)
    (hlow : temps.getD 0 0 < t) (hhigh : t < temps.getD (temps.length - 1) 0) :
    1 ≤ bisectLeft temps t ∧ bisectLeft temps t ≤ temps.length - 1 ∧
      (slopes temps speeds).length = temps.length - 1 :=
  ⟨(bisect_interior temps h2 t hlow hhigh).1,
   (bisect_interior temps h2 t hlow hhigh).2,
   slopes_length temps speeds hlen⟩

/-- Witness for C10: the default curve at temperature 65. -/
theorem interior_index_in_bounds_witness :
    1 ≤ bisectLeft defaultTempCurve 65 ∧
      bisectLeft defaultTempCurve 65 ≤ defaultTempCurve.length - 1 ∧
      (slopes defaultTempCurve defaultSpeedCurve).length = defaultTempCurve.length - 1 :=
  interior_index_in_bounds defaultTempCurve defaultSpeedCurve
    (by norm_num [defaultTempCurve, defaultSpeedCurve])
    (by norm_num [defaultTempCurve])
    (by norm_num [defaultTempCurve, List.chain'_cons])
    65
    (by norm_num [defaultTempCurve])
    (by norm_num [defaultTempCurve])

/-- C1 fails as stated: with the default curve (idle speed 0), the computation
at the first breakpoint (temperature 50) returns the idle speed 0, not
`speeds[0] = 20`, and at the breakpoint 87 the 2-decimal-rounded slope
`round(15/7, 2) = 2.14` gives `70 + 2.14 * 7 = 84.98`, not `speeds[4] = 85`. -/
theorem targetSpeed_knot_counterexample :
    targetSpeed defaultTempCurve defaultSpeedCurve 0 50 ≠ 20 ∧
      targetSpeed defaultTempCurve defaultSpeedCurve 0 87 ≠ 85 := by
  constructor
  · norm_num [targetSpeed, interpolate, bisectLeft, slopes, round2, roundHalfEven,
      defaultTempCurve, defaultSpeedCurve]
  · norm_num [targetSpeed, interpolate, bisectLeft, slopes, round2, roundHalfEven,
      defaultTempCurve, defaultSpeedCurve]

/-- C1 (amended): at `temperatures[0]` the computation returns the idle speed;
at the last breakpoint it returns `speeds[last]` unconditionally (the
`temp >= TEMP_CURVE[-1]` branch, independent of slope rounding); and at every
breakpoint `i ≥ 1` whose incoming segment slope is left unchanged by the
2-decimal rounding, the computation at `temperatures[i]` returns `speeds[i]`
exactly. -/
theorem targetSpeed_knot (temps speeds : List ℚ) (idle : ℚ)
    (hlen : temps.length = speeds.length) (h2 : 2 ≤ temps.length)
    (hT : List.Chain' (· < ·) temps) :
    targetSpeed temps speeds idle (temps.getD 0 0) = idle ∧
      targetSpeed temps speeds idle (temps.getD (temps.length - 1) 0) =
        speeds.getD (speeds.length - 1) 0 ∧
      ∀ i, 1 ≤ i → i < temps.length →
        round2 ((speeds.getD i 0 - speeds.getD (i - 1) 0) /
            (temps.getD i 0 - temps.getD (i - 1) 0)) =
          (speeds.getD i 0 - speeds.getD (i - 1) 0) /
            (temps.getD i 0 - temps.getD (i - 1) 0) →
        targetSpeed temps speeds idle (temps.getD i 0) = speeds.getD i 0 := by
  refine ⟨?_, ?_, ?_⟩
  · unfold targetSpeed
    rw [if_pos (le_refl _)]
  · have hlow : temps.getD 0 0 < temps.getD (temps.length - 1) 0 :=
      chain'_getD_trans_lt temps hT 0 (temps.length - 1) (by omega) (by omega)
    unfold targetSpeed
    rw [if_neg (not_le.mpr hlow), if_pos (le_refl _)]
  · intro i hi1 hi2 hexact
    have hlow : temps.getD 0 0 < temps.getD i 0 :=
      chain'_getD_trans_lt temps hT 0 i (by omega) hi2
    unfold targetSpeed
    rw [if_neg (not_le.mpr hlow)]
    by_cases hlast : temps.getD (temps.length - 1) 0 ≤ temps.getD i 0
    · have hile : i = temps.length - 1 := by
        by_contra hne
        have hilt : i < temps.length - 1 := by omega
        have := chain'_getD_trans_lt temps hT i (temps.length - 1) hilt (by omega)
        exact absurd this (not_lt.mpr hlast)
      rw [if_pos hlast, hile, hlen]
    · rw [if_neg hlast]
      have hbis : bisectLeft temps (temps.getD i 0) = i := by
        apply bisectLeft_eq_of temps _ i (by omega)
        · intro j hj
          exact chain'_getD_trans_lt temps hT j i hj hi2
        · intro _
          exact le_refl _
      simp only [interpolate]
      rw [hbis]
      have hsl := slopes_getD temps speeds hlen (i - 1) (by omega)
      rw [show i - 1 + 1 = i by omega] at hsl
      rw [hsl, hexact]
      have hne : temps.getD i 0 - temps.getD (i - 1) 0 ≠ 0 := by
        have := chain'_getD_trans_lt temps hT (i - 1) i (by omega) hi2
        exact ne_of_gt (by linarith)
      rw [div_mul_cancel₀ _ hne]
      ring

/-- Witness for C1 (amended): the default curve gives idle speed 0 at
temperature 50, speed 100 at the last breakpoint 93 (unconditionally), and
speed 60 at breakpoint `i = 2` (temperature 70, exact slope 2). -/
theorem targetSpeed_knot_witness :
    targetSpeed defaultTempCurve defaultSpeedCurve 0 (defaultTempCurve.getD 0 0) = 0 ∧
      targetSpeed defaultTempCurve defaultSpeedCurve 0
        (defaultTempCurve.getD (defaultTempCurve.length - 1) 0) =
        defaultSpeedCurve.getD (defaultSpeedCurve.length - 1) 0 ∧
      targetSpeed defaultTempCurve defaultSpeedCurve 0 (defaultTempCurve.getD 2 0) =
        defaultSpeedCurve.getD 2 0 := by
  have h := targetSpeed_knot defaultTempCurve defaultSpeedCurve 0
    (by norm_num [defaultTempCurve, defaultSpeedCurve])
    (by norm_num [defaultTempCurve])
    (by norm_num [defaultTempCurve, List.chain'_cons])
  exact ⟨h.1, h.2.1, h.2.2 2 (by norm_num) (by norm_num [defaultTempCurve])
    (by norm_num [defaultTempCurve, defaultSpeedCurve, round2, roundHalfEven])⟩

lemma slope_nonneg (temps speeds : List ℚ) (hlen : temps.length = speeds.length)
    (hT : List.Chain' (· < ·) temps) (hS : List.Chain' (· ≤ ·) speeds)
    (j : ℕ) (hj : j + 1 < temps.length) :
    0 ≤ (slopes temps speeds).getD j 0 := by
  rw [slopes_getD temps speeds hlen j hj]
  apply round2_nonneg
  apply div_nonneg
  · have := chain'_getD _ speeds hS j (hlen ▸ hj)
    linarith
  · have := chain'_getD _ temps hT j hj
    linarith

lemma slope_mul_le (temps speeds : List ℚ) (_hlen : temps.length = speeds.length)
    (hT : List.Chain' (· < ·) temps)
    (hslope : ∀ j, j + 1 < temps.length → (slopes temps speeds).getD j 0 ≤
      (speeds.getD (j + 1) 0 - speeds.getD j 0) /
        (temps.getD (j + 1) 0 - temps.getD j 0))
    (j : ℕ) (hj : j + 1 < temps.length) :
    (slopes temps speeds).getD j 0 * (temps.getD (j + 1) 0 - temps.getD j 0) ≤
      speeds.getD (j + 1) 0 - speeds.getD j 0 := by
  have hdt : 0 < temps.getD (j + 1) 0 - temps.getD j 0 := by
    have := chain'_getD _ temps hT j hj
    linarith
  calc (slopes temps speeds).getD j 0 * (temps.getD (j + 1) 0 - temps.getD j 0)
      ≤ ((speeds.getD (j + 1) 0 - speeds.getD j 0) /
          (temps.getD (j + 1) 0 - temps.getD j 0)) *
          (temps.getD (j + 1) 0 - temps.getD j 0) :=
        mul_le_mul_of_nonneg_right (hslope j hj) (le_of_lt hdt)
    _ = speeds.getD (j + 1) 0 - speeds.getD j 0 :=
        div_mul_cancel₀ _ (ne_of_gt hdt)

lemma interpolate_le_getD (temps speeds : List ℚ)
    (hlen : temps.length = speeds.length) (h2 : 2 ≤ temps.length)
    (hT : List.Chain' (· < ·) temps) (hS : List.Chain' (· ≤ ·) speeds)
    (hslope : ∀ j, j + 1 < temps.length → (slopes temps speeds).getD j 0 ≤
      (speeds.getD (j + 1) 0 - speeds.getD j 0) /
        (temps.getD (j + 1) 0 - temps.getD j 0))
    (t : ℚ) (hlow : temps.getD 0 0 < t)
    (hhigh : t < temps.getD (temps.length - 1) 0) :
    interpolate temps speeds t ≤ speeds.getD (bisectLeft temps t) 0 := by
  obtain ⟨hi1, hi2⟩ := bisect_interior temps h2 t hlow hhigh
  have hiub : bisectLeft temps t < temps.length := by omega
  have ht_le : t ≤ temps.getD (bisectLeft temps t) 0 :=
    le_getD_bisectLeft temps t hiub
  have hj : bisectLeft temps t - 1 + 1 < temps.length := by omega
  have hm0 : 0 ≤ (slopes temps speeds).getD (bisectLeft temps t - 1) 0 :=
    slope_nonneg temps speeds hlen hT hS _ hj
  have hml := slope_mul_le temps speeds hlen hT hslope _ hj
  rw [show bisectLeft temps t - 1 + 1 = bisectLeft temps t by omega] at hml
  simp only [interpolate]
  have hstep : (slopes temps speeds).getD (bisectLeft temps t - 1) 0 *
        (t - temps.getD (bisectLeft temps t - 1) 0) ≤
      (slopes temps speeds).getD (bisectLeft temps t - 1) 0 *
        (temps.getD (bisectLeft temps t) 0 - temps.getD (bisectLeft temps t - 1) 0) :=
    mul_le_mul_of_nonneg_left (by linarith) hm0
  linarith

lemma getD_le_interpolate (temps speeds : List ℚ)
    (hlen : temps.length = speeds.length) (h2 : 2 ≤ temps.length)
    (hT : List.Chain' (· < ·) temps) (hS : List.Chain' (· ≤ ·) speeds)
    (t : ℚ) (hlow : temps.getD 0 0 < t)
    (hhigh : t < temps.getD (temps.length - 1) 0) :
    speeds.getD (bisectLeft temps t - 1) 0 ≤ interpolate temps speeds t := by
  obtain ⟨hi1, hi2⟩ := bisect_interior temps h2 t hlow hhigh
  have hj : bisectLeft temps t - 1 + 1 < temps.length := by omega
  have hm0 : 0 ≤ (slopes temps speeds).getD (bisectLeft temps t - 1) 0 :=
    slope_nonneg temps speeds hlen hT hS _ hj
  have ht_gt : temps.getD (bisectLeft temps t - 1) 0 < t :=
    bisectLeft_getD_lt temps t _ (by omega)
  simp only [interpolate]
  have := mul_nonneg hm0 (by linarith :
    (0 : ℚ) ≤ t - temps.getD (bisectLeft temps t - 1) 0)
  linarith

/-- C2 fails as stated: for the valid curve `temps = [0,10,13,20]`,
`speeds = [0,0,2,2]` (non-decreasing), the slope of the middle segment,
`2/3`, rounds up to `0.67`, so the computation jumps to `0.67 * 3 = 2.01` at
temperature 13 and back down to `2` at temperature 14. -/
theorem targetSpeed_monotone_counterexample :
    targetSpeed [0, 10, 13, 20] [0, 0, 2, 2] 0 14 <
      targetSpeed [0, 10, 13, 20] [0, 0, 2, 2] 0 13 := by
  norm_num [targetSpeed, interpolate, bisectLeft, slopes, round2, roundHalfEven]

/-- C2 (amended): for a valid curve with non-decreasing speeds, and whose
2-decimal-rounded slopes never exceed the exact segment slopes (in particular
whenever every slope is exactly representable at 2 decimals), the computation
is non-decreasing on temperatures above the first breakpoint. -/
theorem targetSpeed_monotone (temps speeds : List ℚ) (idle : ℚ)
    (hlen : temps.length = speeds.length) (h2 : 2 ≤ temps.length)
    (hT : List.Chain' (· < ·) temps) (hS : List.Chain' (· ≤ ·) speeds)
    (hslope : ∀ j, j + 1 < temps.length → (slopes temps speeds).getD j 0 ≤
      (speeds.getD (j + 1) 0 - speeds.getD j 0) /
        (temps.getD (j + 1) 0 - temps.getD j 0))
    (t1 t2 : ℚ) (ht1 : temps.getD 0 0 < t1) (h12 : t1 ≤ t2) :
    targetSpeed temps speeds idle t1 ≤ targetSpeed temps speeds idle t2 := by
  have ht2 : temps.getD 0 0 < t2 := lt_of_lt_of_le ht1 h12
  unfold targetSpeed
  rw [if_neg (not_le.mpr ht1), if_neg (not_le.mpr ht2)]
  by_cases hl1 : temps.getD (temps.length - 1) 0 ≤ t1
  · rw [if_pos hl1, if_pos (le_trans hl1 h12)]
  · rw [if_neg hl1]
    have hhigh1 : t1 < temps.getD (temps.length - 1) 0 := not_le.mp hl1
    obtain ⟨hb11, hb12⟩ := bisect_interior temps h2 t1 ht1 hhigh1
    by_cases hl2 : temps.getD (temps.length - 1) 0 ≤ t2
    · rw [if_pos hl2]
      have hA := interpolate_le_getD temps speeds hlen h2 hT hS hslope t1 ht1 hhigh1
      have hC : speeds.getD (bisectLeft temps t1) 0 ≤
          speeds.getD (speeds.length - 1) 0 :=
        chain'_getD_trans_le speeds hS _ _ (by omega) (by omega)
      linarith
    · rw [if_neg hl2]
      have hhigh2 : t2 < temps.getD (temps.length - 1) 0 := not_le.mp hl2
      obtain ⟨hb21, hb22⟩ := bisect_interior temps h2 t2 ht2 hhigh2
      have hmono : bisectLeft temps t1 ≤ bisectLeft temps t2 :=
        bisectLeft_mono temps h12
      by_cases heq : bisectLeft temps t1 = bisectLeft temps t2
      · have hj : bisectLeft temps t2 - 1 + 1 < temps.length := by omega
        have hm0 : 0 ≤ (slopes temps speeds).getD (bisectLeft temps t2 - 1) 0 :=
          slope_nonneg temps speeds hlen hT hS _ hj
        simp only [interpolate]
        rw [heq]
        have hstep : (slopes temps speeds).getD (bisectLeft temps t2 - 1) 0 *
              (t1 - temps.getD (bisectLeft temps t2 - 1) 0) ≤
            (slopes temps speeds).getD (bisectLeft temps t2 - 1) 0 *
              (t2 - temps.getD (bisectLeft temps t2 - 1) 0) :=
          mul_le_mul_of_nonneg_left (by linarith) hm0
        linarith
      · have hlt : bisectLeft temps t1 < bisectLeft temps t2 := by omega
        have hA := interpolate_le_getD temps speeds hlen h2 hT hS hslope t1 ht1 hhigh1
        have hB := getD_le_interpolate temps speeds hlen h2 hT hS t2 ht2 hhigh2
        have hC : speeds.getD (bisectLeft temps t1) 0 ≤
            speeds.getD (bisectLeft temps t2 - 1) 0 :=
          chain'_getD_trans_le speeds hS _ _ (by omega) (by omega)
        linarith

/-- Witness for C2 (amended): the default curve (whose rounded slopes all stay
at or below the exact slopes) at temperatures 55 ≤ 65. -/
theorem targetSpeed_monotone_witness :
    targetSpeed defaultTempCurve defaultSpeedCurve 0 55 ≤
      targetSpeed defaultTempCurve defaultSpeedCurve 0 65 :=
  targetSpeed_monotone defaultTempCurve defaultSpeedCurve 0
    (by norm_num [defaultTempCurve, defaultSpeedCurve])
    (by norm_num [defaultTempCurve])
    (by norm_num [defaultTempCurve, List.chain'_cons])
    (by norm_num [defaultSpeedCurve, List.chain'_cons])
    (by
      intro j hj
      simp only [defaultTempCurve, List.length_cons, List.length_nil] at hj
      have hj5 : j < 5 := by omega
      interval_cases j <;>
        norm_num [defaultTempCurve, defaultSpeedCurve, slopes, round2, roundHalfEven])
    55 65
    (by norm_num [defaultTempCurve])
    (by norm_num)

/-! ### Claims about the filters -/

lemma smoothTemp_fst_window (f : TemperatureFilter) (t : ℚ) :
    (smoothTemp f t).1.window =
      if f.window.length = f.windowSize then f.window.tail ++ [t]
      else f.window ++ [t] := rfl

lemma smoothTemp_fst_size (f : TemperatureFilter) (t : ℚ) :
    (smoothTemp f t).1.windowSize = f.windowSize := rfl

lemma smoothTemp_snd (f : TemperatureFilter) (t : ℚ) :
    (smoothTemp f t).2 =
      ((smoothTemp f t).1.window).sum / (((smoothTemp f t).1.window).length : ℚ) := rfl

/-- C3 fails as stated: `last_speed` is initialized to `0`, which is itself a
valid speed percentage, so a fresh filter with threshold 2 suppresses the
first candidate 1 and returns 0, not 1. -/
theorem hysteresis_sentinel_counterexample :
    (TemperatureFilter.init 5 2).last_speed = 0 ∧
      (applyHysteresis (TemperatureFilter.init 5 2) 1).2 ≠ 1 := by
  constructor
  · rfl
  · norm_num [applyHysteresis, TemperatureFilter.init]

/-- C3 (amended): the stored last-emitted value is initialized to `0` (a valid
speed percentage, not a sentinel), so the first candidate `c` is emitted only
when `|c| ≥ threshold` and is otherwise suppressed in favour of `0`; in
particular a fresh filter with threshold 2 returns `0` for first candidate 1. -/
theorem hysteresis_first_candidate (w : ℕ) (h c : ℚ) :
    (applyHysteresis (TemperatureFilter.init w h) c).2 = if |c| < h then 0 else c := by
  simp only [applyHysteresis, TemperatureFilter.init, sub_zero]
  split <;> rfl

/-- C4 fails as stated: at speed 50 the daemon writes `int(55 * 50 / 100) = 27`
hardware units for fan 1, while nearest-integer rounding of `27.5` gives 28. -/
theorem fan_units_round_counterexample :
    mainLoopFanUnits 50 = (27, 28) ∧ roundHalfEven (55 * 50 / 100) = 28 := by
  constructor
  · norm_num [mainLoopFanUnits, pyTrunc, Prod.ext_iff]
  · norm_num [roundHalfEven]

/-- C4 (amended): for every speed percentage `s ∈ [0,100]` the hardware unit
written for each fan is the `int()` truncation `⌊fan_max_units * s / 100⌋`
(floor, since the operand is non-negative), computed independently for fan 1
(max 55) and fan 2 (max 57); each unit stays within `[0, fan_max_units]`. -/
theorem fan_units_floor (s : ℚ) (h0 : 0 ≤ s) (h100 : s ≤ 100) :
    mainLoopFanUnits s = (⌊55 * s / 100⌋, ⌊57 * s / 100⌋) ∧
      0 ≤ ⌊55 * s / 100⌋ ∧ ⌊55 * s / 100⌋ ≤ 55 ∧
      0 ≤ ⌊57 * s / 100⌋ ∧ ⌊57 * s / 100⌋ ≤ 57 := by
  have h55 : (0 : ℚ) ≤ 55 * s / 100 := by positivity
  have h57 : (0 : ℚ) ≤ 57 * s / 100 := by positivity
  refine ⟨?_, Int.floor_nonneg.mpr h55, ?_, Int.floor_nonneg.mpr h57, ?_⟩
  · unfold mainLoopFanUnits pyTrunc
    rw [if_pos h55, if_pos h57]
  · have hle : (⌊55 * s / 100⌋ : ℚ) ≤ 55 := le_trans (Int.floor_le _) (by linarith)
    exact_mod_cast hle
  · have hle : (⌊57 * s / 100⌋ : ℚ) ≤ 57 := le_trans (Int.floor_le _) (by linarith)
    exact_mod_cast hle

/-- Witness for C4 (amended): speed 50 gives fan units (27, 28). -/
theorem fan_units_floor_witness :
    mainLoopFanUnits 50 = (⌊(55 : ℚ) * 50 / 100⌋, ⌊(57 : ℚ) * 50 / 100⌋) ∧
      0 ≤ ⌊(55 : ℚ) * 50 / 100⌋ ∧ ⌊(55 : ℚ) * 50 / 100⌋ ≤ 55 ∧
      0 ≤ ⌊(57 : ℚ) * 50 / 100⌋ ∧ ⌊(57 : ℚ) * 50 / 100⌋ ≤ 57 :=
  fan_units_floor 50 (by norm_num) (by norm_num)

/-- C7: the hysteresis filter returns the stored value with unchanged state
when `|candidate - last| < threshold`, and stores and returns the candidate
when `|candidate - last| ≥ threshold`; at the equality boundary the candidate
is emitted. -/
theorem apply_hysteresis_spec (f : TemperatureFilter) (c : ℚ) :
    (|c - f.last_speed| < f.hysteresis → applyHysteresis f c = (f, f.last_speed)) ∧
      (f.hysteresis ≤ |c - f.last_speed| →
        applyHysteresis f c = (⟨f.window, f.windowSize, f.hysteresis, c⟩, c)) := by
  constructor
  · intro h
    unfold applyHysteresis
    rw [if_pos h]
  · intro h
    unfold applyHysteresis
    rw [if_neg (not_lt.mpr h)]

/-- Witness for C7: stored value 50, threshold 2: candidate 51 is suppressed,
boundary candidate 52 is emitted. -/
theorem apply_hysteresis_spec_witness :
    applyHysteresis ⟨[], 5, 2, 50⟩ 51 = (⟨[], 5, 2, 50⟩, 50) ∧
      applyHysteresis ⟨[], 5, 2, 50⟩ 52 = (⟨[], 5, 2, 52⟩, 52) :=
  ⟨(apply_hysteresis_spec ⟨[], 5, 2, 50⟩ 51).1 (by norm_num),
   (apply_hysteresis_spec ⟨[], 5, 2, 50⟩ 52).2 (by norm_num)⟩

lemma smoothRun_getD (xs : List ℚ) : ∀ (f : TemperatureFilter) (j : ℕ),
    j < xs.length → f.window.length + xs.length ≤ f.windowSize →
    (smoothRun f xs).2.getD j 0 =
      (f.window ++ xs.take (j + 1)).sum / ((f.window.length + (j + 1) : ℕ) : ℚ) := by
  induction xs with
  | nil =>
    intro f j hj _
    simp at hj
  | cons t ts ih =>
    intro f j hj hle
    have hne : f.window.length ≠ f.windowSize := by
      simp only [List.length_cons] at hle
      omega
    cases j with
    | zero =>
      simp only [smoothRun, List.getD_cons_zero]
      rw [smoothTemp_snd, smoothTemp_fst_window, if_neg hne]
      simp [List.take_succ_cons]
    | succ n =>
      have hn : n < ts.length := by
        simp only [List.length_cons] at hj
        omega
      have hle' : (smoothTemp f t).1.window.length + ts.length ≤
          (smoothTemp f t).1.windowSize := by
        rw [smoothTemp_fst_window, if_neg hne, smoothTemp_fst_size]
        simp only [List.length_append, List.length_singleton, List.length_cons,
          List.length_nil] at hle ⊢
        omega
      simp only [smoothRun, List.getD_cons_succ]
      rw [ih (smoothTemp f t).1 n hn hle']
      rw [smoothTemp_fst_window, if_neg hne]
      have harr : (f.window ++ [t]) ++ ts.take (n + 1) =
          f.window ++ (t :: ts).take (n + 1 + 1) := by
        rw [List.take_succ_cons, List.append_assoc, List.singleton_append]
      have hlen2 : (f.window ++ [t]).length + (n + 1) =
          f.window.length + (n + 1 + 1) := by
        simp only [List.length_append, List.length_singleton]
        omega
      rw [harr, hlen2]

lemma smoothTemp_const (f : TemperatureFilter) (c : ℚ)
    (hw : ∀ x ∈ f.window, x = c) :
    (∀ x ∈ (smoothTemp f c).1.window, x = c) ∧ (smoothTemp f c).2 = c := by
  have hw' : ∀ x ∈ (smoothTemp f c).1.window, x = c := by
    rw [smoothTemp_fst_window]
    split
    · intro x hx
      rcases List.mem_append.mp hx with h | h
      · exact hw x (List.mem_of_mem_tail h)
      · simpa using h
    · intro x hx
      rcases List.mem_append.mp hx with h | h
      · exact hw x h
      · simpa using h
  refine ⟨hw', ?_⟩
  rw [smoothTemp_snd]
  have hne : (smoothTemp f c).1.window ≠ [] := by
    rw [smoothTemp_fst_window]
    split <;> simp
  have hlen0 : ((smoothTemp f c).1.window).length ≠ 0 := by
    simpa [List.length_eq_zero] using hne
  have hc : (((smoothTemp f c).1.window).length : ℚ) ≠ 0 := Nat.cast_ne_zero.mpr hlen0
  rw [List.sum_eq_card_nsmul _ c hw', nsmul_eq_mul]
  field_simp

lemma smoothRun_const (c : ℚ) : ∀ (xs : List ℚ), (∀ x ∈ xs, x = c) →
    ∀ (f : TemperatureFilter), (∀ x ∈ f.window, x = c) →
      ∀ out ∈ (smoothRun f xs).2, out = c := by
  intro xs
  induction xs with
  | nil =>
    intro _ f _ out hout
    simp [smoothRun] at hout
  | cons t ts ih =>
    intro hxs f hw out hout
    have htc : t = c := hxs t (by simp)
    simp only [smoothRun] at hout
    rcases List.mem_cons.mp hout with h | h
    · rw [h, htc]
      exact (smoothTemp_const f c hw).2
    · rw [htc] at h
      exact ih (fun x hx => hxs x (by simp [hx])) (smoothTemp f c).1
        (smoothTemp_const f c hw).1 out h

/-- C8: feeding samples to the smoothing filter (window capacity 5) from a
fresh state, the `j`-th output is the arithmetic mean of the first `j + 1`
samples (for at most 5 samples), and a constant input stream yields that
constant as every output. -/
theorem smooth_temp_spec :
    (∀ (xs : List ℚ) (j : ℕ), j < xs.length → xs.length ≤ 5 →
      (smoothRun (TemperatureFilter.init 5 2) xs).2.getD j 0 =
        (xs.take (j + 1)).sum / ((j + 1 : ℕ) : ℚ)) ∧
    (∀ (c : ℚ) (n : ℕ),
      ∀ out ∈ (smoothRun (TemperatureFilter.init 5 2) (List.replicate n c)).2, out = c) := by
  constructor
  · intro xs j hj hlen
    have h := smoothRun_getD xs (TemperatureFilter.init 5 2) j hj
      (by simpa [TemperatureFilter.init] using hlen)
    simpa [TemperatureFilter.init] using h
  · intro c n out hout
    exact smoothRun_const c (List.replicate n c)
      (fun x hx => List.eq_of_mem_replicate hx)
      (TemperatureFilter.init 5 2) (by simp [TemperatureFilter.init]) out hout

/-- Witness for C8: samples `[3, 5]` give second output `4`; three constant
samples `7` give only outputs `7`. -/
theorem smooth_temp_spec_witness :
    (smoothRun (TemperatureFilter.init 5 2) [3, 5]).2.getD 1 0 = 4 ∧
      ∀ out ∈ (smoothRun (TemperatureFilter.init 5 2) (List.replicate 3 7)).2, out = 7 := by
  constructor
  · have h := smooth_temp_spec.1 [3, 5] 1 (by norm_num) (by norm_num)
    rw [h]
    norm_num
  · exact fun out hout => smooth_temp_spec.2 7 3 out hout

/-! ### Claims about startup and register-write ordering -/

/-- C5 fails as stated: a non-root invocation of the daemon still creates the
PID liveness marker (written at module level before `is_root()` runs) and only
then aborts with exit status 1. -/
theorem startup_order_counterexample :
    StartEv.writePid ∈ daemonStartup false ∧
      (daemonStartup false).getLast? = some (.exitProc 1) := by
  constructor
  · simp [daemonStartup]
  · rfl

/-- C5 (amended): the daemon writes the liveness marker before the privilege
check on every startup; when the process lacks root privilege it aborts
fatally (exit status 1) after having created the marker, and when privileged
the check passes after the marker is written. -/
theorem startup_pid_write_order :
    daemonStartup false =
      [.sigRegister, .logSetup, .logStart, .writePid, .printRootErr, .exitProc 1] ∧
      daemonStartup true =
        [.sigRegister, .logSetup, .logStart, .writePid, .rootCheckPass] ∧
      (daemonStartup true).indexOf .writePid <
        (daemonStartup true).indexOf .rootCheckPass ∧
      (daemonStartup false).indexOf .writePid <
        (daemonStartup false).indexOf (.exitProc 1) := by
  refine ⟨rfl, rfl, ?_, ?_⟩ <;> decide

/-- C6: the take-ownership sequence writes value 6 to the ownership register
(offset 98) strictly before value 0 to the timer register (offset 99), with
the settle delay strictly between them; the release sequence writes value 0
to the ownership register strictly before zeroing fan 1 (offset 52) and then
fan 2 (offset 53) — in both `omen-fand.py` and `omen-fan.py`. -/
theorem bios_control_write_order :
    biosControlFand false = [.write 98 6, .settle, .write 99 0] ∧
      biosControlFand true = [.write 98 0, .write 52 0, .write 53 0] ∧
      biosControlFan false = biosControlFand false ∧
      biosControlFan true = biosControlFand true ∧
      (biosControlFand false).indexOf (.write 98 6) <
        (biosControlFand false).indexOf .settle ∧
      (biosControlFand false).indexOf .settle <
        (biosControlFand false).indexOf (.write 99 0) ∧
      (biosControlFand true).indexOf (.write 98 0) <
        (biosControlFand true).indexOf (.write 52 0) ∧
      (biosControlFand true).indexOf (.write 52 0) <
        (biosControlFand true).indexOf (.write 53 0) := by
  refine ⟨rfl, rfl, rfl, rfl, ?_, ?_, ?_, ?_⟩ <;> decide

/-- C9: with the default curve and idle speed 0, the computation returns 50 at
temperature 65, 0 at temperature 45, and 100 at temperature 95. -/
theorem default_curve_values :
    targetSpeed defaultTempCurve defaultSpeedCurve 0 65 = 50 ∧
      targetSpeed defaultTempCurve defaultSpeedCurve 0 45 = 0 ∧
      targetSpeed defaultTempCurve defaultSpeedCurve 0 95 = 100 := by
  refine ⟨?_, ?_, ?_⟩ <;>
    norm_num [targetSpeed, interpolate, bisectLeft, slopes, round2, roundHalfEven,
      defaultTempCurve, defaultSpeedCurve]

end OmenFan
